import Mathlib

/-!
Verification of the fluidnc-led-golang HUB75 LED-matrix driver.

This file gives a shallow embedding, in Lean, of the driver's core
operations and proves properties about them:

* the software-timed HUB75 row scan (`HUB75Controller.UpdateRow` in
  cmd/hub75-gpio/main.go, and the identically ordered
  `HUB75Program.UpdateRow` in the pio package), modelled as the trace of
  GPIO pin writes it issues;
* the memory-mapped register window (package mmap, `MemoryMap`) and the
  PIO register accessors (`PIO.readReg` / `PIO.writeReg`);
* the PIO state machine (`StateMachine.Stop`, `StateMachine.Put`,
  `StateMachine.Close`);
* the sysfs GPIO pin lifecycle (`Pin.Close`, `HUB75Controller.Close`);
* the serpentine pixel addressing of `Matrix.SetPixel` /
  `Matrix.GetPixelColor` (package rpi5matrix).

Machine integers are modelled as `Nat` with explicit masking where the Go
code masks; fallible Go functions return `Except`/`Option`; Go runtime
panics are a distinct outcome from returned errors.
-/

namespace FluidncLed

/-! ## HUB75 row scan as a pin-write trace

`HUB75Controller.UpdateRow(rowIdx, rowData)` (cmd/hub75-gpio/main.go)
drives one scan row by writing GPIO pins in a fixed order.  We record that
order as a list of `PinWrite` events.  The pin roles follow the Adafruit
RGB Matrix Bonnet wiring used by the source: six data pins, clock, output
enable (active low: value 0 enables the drivers, 1 disables them), latch,
and the five address bits A..E. -/

inductive PinRole where
  | r1 | g1 | b1 | r2 | g2 | b2
  | clk | oe | la
  | addrA | addrB | addrC | addrD | addrE
deriving DecidableEq, Repr

/-- One call to `setPin(pin, value)` in the Go source. -/
structure PinWrite where
  role : PinRole
  value : Nat
deriving DecidableEq, Repr

/-- `DISPLAY_WIDTH = 64` (cmd/hub75-gpio/main.go). -/
def DISPLAY_WIDTH : Nat := 64

/-- `ROWS = 16`, the number of addressable rows (cmd/hub75-gpio/main.go). -/
def ROWS : Nat := 16

/-- The five address pins A..E give five address lines; the deployment
configuration (docker-compose.yml, `MATRIX_NUM_ADDRESS_LINES`) also sets 5. -/
def addressLineCount : Nat := 5

/-- `addrVal := rowIdx & 0x1F` — the row index masked to 5 bits
(`UpdateRow`, both copies). -/
def addrVal (rowIdx : Nat) : Nat := rowIdx &&& 0x1F

/-- The five address-pin writes issued at the start of `UpdateRow`:
bit i of the masked row index goes to the i-th address pin. -/
def addressWrites (rowIdx : Nat) : List PinWrite :=
  [⟨.addrA, (addrVal rowIdx >>> 0) &&& 1⟩,
   ⟨.addrB, (addrVal rowIdx >>> 1) &&& 1⟩,
   ⟨.addrC, (addrVal rowIdx >>> 2) &&& 1⟩,
   ⟨.addrD, (addrVal rowIdx >>> 3) &&& 1⟩,
   ⟨.addrE, (addrVal rowIdx >>> 4) &&& 1⟩]

/-- The writes for one pixel column: six raw data-byte writes
(`rowData[idx+k]` for `idx = col*6`) followed by a clock pulse
(`UpdateRow` pixel loop). -/
def pixelWrites (rowData : List Nat) (col : Nat) : List PinWrite :=
  [⟨.r1, rowData.getD (col * 6 + 0) 0⟩,
   ⟨.g1, rowData.getD (col * 6 + 1) 0⟩,
   ⟨.b1, rowData.getD (col * 6 + 2) 0⟩,
   ⟨.r2, rowData.getD (col * 6 + 3) 0⟩,
   ⟨.g2, rowData.getD (col * 6 + 4) 0⟩,
   ⟨.b2, rowData.getD (col * 6 + 5) 0⟩,
   ⟨.clk, 1⟩, ⟨.clk, 0⟩]

/-- All data/clock writes of the pixel loop.  The Go loop runs
`col = 0 .. DISPLAY_WIDTH-1` and breaks at the first column with
`col*6 + 5 >= len(rowData)`, so exactly
`min DISPLAY_WIDTH (rowData.length / 6)` columns are emitted. -/
def dataWrites (rowData : List Nat) : List PinWrite :=
  ((List.range (min DISPLAY_WIDTH (rowData.length / 6))).map
    (pixelWrites rowData)).flatten

/-- The full pin-write trace of `HUB75Controller.UpdateRow` (in the
execution where every underlying write succeeds): address bits, then
output disable (`OE := 1`), then the pixel loop, then the latch pulse,
then output enable (`OE := 0`). -/
def updateRowEvents (rowIdx : Nat) (rowData : List Nat) : List PinWrite :=
  addressWrites rowIdx ++ [⟨.oe, 1⟩] ++ dataWrites rowData ++
    [⟨.la, 1⟩, ⟨.la, 0⟩, ⟨.oe, 0⟩]

/-- Is this one of the five address pins? -/
def PinRole.isAddr : PinRole → Bool
  | .addrA | .addrB | .addrC | .addrD | .addrE => true
  | _ => false

/-- Is this one of the six RGB data pins? -/
def PinRole.isData : PinRole → Bool
  | .r1 | .g1 | .b1 | .r2 | .g2 | .b2 => true
  | _ => false

/-- The OE pin value after executing a write trace, starting from `c`. -/
def oeAfter (c : Nat) : List PinWrite → Nat
  | [] => c
  | w :: rest => oeAfter (if w.role = .oe then w.value else c) rest

/-- The writes of a trace that are issued while output is enabled
(OE is active low: the drivers are on while the OE pin reads 0).
`c` is the OE pin value when the trace starts. -/
def writesWhileEnabled (c : Nat) : List PinWrite → List PinWrite
  | [] => []
  | w :: rest =>
    (if c = 0 then [w] else []) ++
      writesWhileEnabled (if w.role = .oe then w.value else c) rest

theorem oeAfter_append (c : Nat) (xs ys : List PinWrite) :
    oeAfter c (xs ++ ys) = oeAfter (oeAfter c xs) ys := by
  induction xs generalizing c with
  | nil => rfl
  | cons w rest ih => simp [oeAfter, ih]

theorem writesWhileEnabled_append (c : Nat) (xs ys : List PinWrite) :
    writesWhileEnabled c (xs ++ ys) =
      writesWhileEnabled c xs ++ writesWhileEnabled (oeAfter c xs) ys := by
  induction xs generalizing c with
  | nil => rfl
  | cons w rest ih => simp [writesWhileEnabled, oeAfter, ih]

theorem oeAfter_of_no_oe (c : Nat) (xs : List PinWrite)
    (h : ∀ w ∈ xs, w.role ≠ PinRole.oe) : oeAfter c xs = c := by
  induction xs generalizing c with
  | nil => rfl
  | cons w rest ih =>
    have hw : w.role ≠ PinRole.oe := h w (List.mem_cons_self _ _)
    simp only [oeAfter, if_neg hw]
    exact ih c fun x hx => h x (List.mem_cons_of_mem _ hx)

theorem writesWhileEnabled_of_no_oe (c : Nat) (xs : List PinWrite)
    (h : ∀ w ∈ xs, w.role ≠ PinRole.oe) :
    writesWhileEnabled c xs = if c = 0 then xs else [] := by
  induction xs generalizing c with
  | nil => simp [writesWhileEnabled]
  | cons w rest ih =>
    have hw : w.role ≠ PinRole.oe := h w (List.mem_cons_self _ _)
    have ih' := ih c fun x hx => h x (List.mem_cons_of_mem _ hx)
    simp only [writesWhileEnabled, if_neg hw, ih']
    by_cases hc : c = 0 <;> simp [hc]

theorem mem_dataWrites_role (rowData : List Nat) (w : PinWrite)
    (hw : w ∈ dataWrites rowData) :
    w.role ≠ PinRole.oe ∧ w.role ≠ PinRole.la := by
  simp only [dataWrites, List.mem_flatten, List.mem_map] at hw
  obtain ⟨l, ⟨col, _, rfl⟩, hmem⟩ := hw
  simp only [pixelWrites, List.mem_cons, List.not_mem_nil, or_false] at hmem
  rcases hmem with rfl | rfl | rfl | rfl | rfl | rfl | rfl | rfl <;> simp

theorem mem_addressWrites_role (rowIdx : Nat) (w : PinWrite)
    (hw : w ∈ addressWrites rowIdx) : w.role.isAddr = true := by
  simp only [addressWrites, List.mem_cons, List.not_mem_nil, or_false] at hw
  rcases hw with rfl | rfl | rfl | rfl | rfl <;> rfl

/-- The writes issued while output is enabled during one `UpdateRow` call:
if output was enabled on entry, exactly the five address writes and the
disabling OE write itself; otherwise none. -/
theorem writesWhileEnabled_updateRow (c rowIdx : Nat) (rowData : List Nat) :
    writesWhileEnabled c (updateRowEvents rowIdx rowData) =
      if c = 0 then addressWrites rowIdx ++ [⟨.oe, 1⟩] else [] := by
  have haddr : ∀ w ∈ addressWrites rowIdx, w.role ≠ PinRole.oe := by
    intro w hw
    have := mem_addressWrites_role rowIdx w hw
    cases w with
    | mk role value => cases role <;> simp_all [PinRole.isAddr]
  have hdata : ∀ w ∈ dataWrites rowData, w.role ≠ PinRole.oe :=
    fun w hw => (mem_dataWrites_role rowData w hw).1
  have h1 : oeAfter c (addressWrites rowIdx) = c := oeAfter_of_no_oe _ _ haddr
  have h2 : writesWhileEnabled c (addressWrites rowIdx) =
      if c = 0 then addressWrites rowIdx else [] :=
    writesWhileEnabled_of_no_oe _ _ haddr
  have h3 : oeAfter 1 (dataWrites rowData) = 1 := oeAfter_of_no_oe _ _ hdata
  have h4 : writesWhileEnabled 1 (dataWrites rowData) = [] := by
    simpa using writesWhileEnabled_of_no_oe 1 (dataWrites rowData) hdata
  simp only [updateRowEvents, writesWhileEnabled_append, oeAfter_append,
    h1, h2]
  by_cases hc : c = 0 <;>
    simp [hc, writesWhileEnabled, oeAfter, h3, h4]

theorem addrVal_mod (rowIdx : Nat) : addrVal rowIdx = rowIdx % 2 ^ 5 := by
  have h := Nat.and_pow_two_sub_one_eq_mod rowIdx 5
  norm_num at h
  simpa [addrVal] using h

/-- Claim C1: the claim states that output enable is deasserted before any
address-bit or data-pin write of a row scan.  It is false on the code:
`UpdateRow` writes the five address pins first and only then disables
output, so with output enabled on entry (lines are requested with
`AsOutput(0)` and every row ends with `OE := 0`) the address-pin writes of
the very first row occur while output is enabled. -/
theorem updateRow_oe_ordering_counterexample :
    ¬ (∀ w ∈ writesWhileEnabled 0 (updateRowEvents 0 []),
        w.role.isAddr = false ∧ w.role.isData = false) := by
  decide

/-- Claim C1, amended: no data-pin write ever occurs while output is enabled,
whatever the OE state on entry, and output is re-enabled only by the final
write of the row, which follows the complete latch pulse; but the five
address-bit writes are issued before output is disabled, not after. -/
theorem updateRow_oe_data_ordering (c rowIdx : Nat) (rowData : List Nat) :
    (∀ w ∈ writesWhileEnabled c (updateRowEvents rowIdx rowData),
        w.role.isData = false) ∧
    (∃ t, updateRowEvents rowIdx rowData =
        t ++ [⟨.la, 1⟩, ⟨.la, 0⟩, ⟨.oe, 0⟩] ∧
        ∀ w ∈ t, ¬ (w.role = PinRole.oe ∧ w.value = 0)) ∧
    (updateRowEvents rowIdx rowData).take 5 = addressWrites rowIdx ∧
    (updateRowEvents rowIdx rowData).get? 5 = some ⟨.oe, 1⟩ := by
  refine ⟨?_, ⟨addressWrites rowIdx ++ [⟨.oe, 1⟩] ++ dataWrites rowData,
    ?_, ?_⟩, ?_, ?_⟩
  · intro w hw
    rw [writesWhileEnabled_updateRow] at hw
    by_cases hc : c = 0
    · rw [if_pos hc] at hw
      rcases List.mem_append.mp hw with hw | hoe
      · have := mem_addressWrites_role rowIdx w hw
        cases w with
        | mk role value => cases role <;> simp_all [PinRole.isAddr, PinRole.isData]
      · have hweq : w = (⟨.oe, 1⟩ : PinWrite) := by simpa using hoe
        subst hweq
        rfl
    · rw [if_neg hc] at hw
      simp at hw
  · simp [updateRowEvents]
  · intro w hw
    simp only [List.mem_append] at hw
    rcases hw with (hw | hoe) | hd
    · intro hcontra
      have := mem_addressWrites_role rowIdx w hw
      rw [hcontra.1] at this
      simp [PinRole.isAddr] at this
    · simp only [List.mem_cons, List.not_mem_nil, or_false] at hoe
      subst hoe
      simp
    · exact fun hcontra => (mem_dataWrites_role rowData w hd).1 hcontra.1
  · simp [updateRowEvents, addressWrites]
  · simp [updateRowEvents, addressWrites]

/-- Closed witness for `updateRow_oe_data_ordering`: the property at
`c = 0`, `rowIdx = 2`, `rowData = [1, 0, 0, 0, 0, 1]`. -/
theorem updateRow_oe_data_ordering_witness :
    (∀ w ∈ writesWhileEnabled 0 (updateRowEvents 2 [1, 0, 0, 0, 0, 1]),
        w.role.isData = false) ∧
    (∃ t, updateRowEvents 2 [1, 0, 0, 0, 0, 1] =
        t ++ [⟨.la, 1⟩, ⟨.la, 0⟩, ⟨.oe, 0⟩] ∧
        ∀ w ∈ t, ¬ (w.role = PinRole.oe ∧ w.value = 0)) ∧
    (updateRowEvents 2 [1, 0, 0, 0, 0, 1]).take 5 = addressWrites 2 ∧
    (updateRowEvents 2 [1, 0, 0, 0, 0, 1]).get? 5 = some ⟨.oe, 1⟩ :=
  updateRow_oe_data_ordering 0 2 [1, 0, 0, 0, 0, 1]

/-- Claim C3: for every row index in `[0, ROWS)` the five values written to the
address pins A..E are exactly the bits of
`rowIdx & ((1 << addressLineCount) - 1)`, bit i going to the i-th pin. -/
theorem updateRow_address_bits (rowIdx : Nat) (_h : rowIdx < ROWS)
    (rowData : List Nat) :
    (updateRowEvents rowIdx rowData).take 5 =
      [⟨.addrA, ((rowIdx &&& (2 ^ addressLineCount - 1)) >>> 0) &&& 1⟩,
       ⟨.addrB, ((rowIdx &&& (2 ^ addressLineCount - 1)) >>> 1) &&& 1⟩,
       ⟨.addrC, ((rowIdx &&& (2 ^ addressLineCount - 1)) >>> 2) &&& 1⟩,
       ⟨.addrD, ((rowIdx &&& (2 ^ addressLineCount - 1)) >>> 3) &&& 1⟩,
       ⟨.addrE, ((rowIdx &&& (2 ^ addressLineCount - 1)) >>> 4) &&& 1⟩] := by
  have hm : (2 : Nat) ^ addressLineCount - 1 = 0x1F := by decide
  simp [updateRowEvents, addressWrites, addrVal, hm]

/-- Closed witness for `updateRow_address_bits` at `rowIdx = 11`. -/
theorem updateRow_address_bits_witness :
    11 < ROWS ∧
    (updateRowEvents 11 []).take 5 =
      [⟨.addrA, ((11 &&& (2 ^ addressLineCount - 1)) >>> 0) &&& 1⟩,
       ⟨.addrB, ((11 &&& (2 ^ addressLineCount - 1)) >>> 1) &&& 1⟩,
       ⟨.addrC, ((11 &&& (2 ^ addressLineCount - 1)) >>> 2) &&& 1⟩,
       ⟨.addrD, ((11 &&& (2 ^ addressLineCount - 1)) >>> 3) &&& 1⟩,
       ⟨.addrE, ((11 &&& (2 ^ addressLineCount - 1)) >>> 4) &&& 1⟩] :=
  ⟨by decide, updateRow_address_bits 11 (by decide) []⟩

/-- Claim C4: the claim states that a row index `≥ 2 ^ addressLineCount` is
rejected before any pin is written.  It is false on the code: `UpdateRow`
performs no row-index validation at all; at `rowIdx = 32` the full trace
of pin writes is issued, starting with the address-bit-A write. -/
theorem updateRow_oversized_row_counterexample :
    2 ^ addressLineCount ≤ 32 ∧
    (updateRowEvents 32 []).head? = some ⟨.addrA, 0⟩ ∧
    updateRowEvents 32 [] ≠ [] := by
  decide

/-- Claim C4, amended: a row index `≥ 2 ^ addressLineCount` is not rejected;
the index is masked with `0x1F`, so the row is driven exactly like the
aliased index `rowIdx % 2 ^ addressLineCount`, and pins are written. -/
theorem updateRow_oversized_row_masked (rowIdx : Nat) (rowData : List Nat) :
    updateRowEvents rowIdx rowData =
      updateRowEvents (rowIdx % 2 ^ addressLineCount) rowData ∧
    updateRowEvents rowIdx rowData ≠ [] := by
  constructor
  · have : addrVal rowIdx = addrVal (rowIdx % 2 ^ addressLineCount) := by
      rw [addrVal_mod, addrVal_mod]
      norm_num [addressLineCount]
    simp [updateRowEvents, addressWrites, this]
  · simp [updateRowEvents, addressWrites]

/-! ## Channel packing of the hardware-path row update

`HUB75Program.UpdateRow` (pio package) packs each group of six channel
bytes into one data word for the state machine FIFO: bit k of the word is
set iff `rowData[i+k] > 0`. -/

/-- The single bit a channel byte contributes: `1` iff the value is
positive (`if rowData[i+k] > 0 { data |= 1 << k }`). -/
def channelBit (v : Nat) : Nat := if v > 0 then 1 else 0

/-- The packed data word `HUB75Program.UpdateRow` sends via `sm.Put` for
the pixel group starting at byte index `i`. -/
def packPixel (rowData : List Nat) (i : Nat) : Nat :=
  (((((0 ||| (channelBit (rowData.getD (i + 0) 0) <<< 0))
    ||| (channelBit (rowData.getD (i + 1) 0) <<< 1))
    ||| (channelBit (rowData.getD (i + 2) 0) <<< 2))
    ||| (channelBit (rowData.getD (i + 3) 0) <<< 3))
    ||| (channelBit (rowData.getD (i + 4) 0) <<< 4))
    ||| (channelBit (rowData.getD (i + 5) 0) <<< 5)

/-- The per-channel transmission the spec describes (stated from the
spec's words, for comparison with the code): a value strictly between 0
and the minimum-brightness floor is clamped up to the floor, any other
value is transmitted unchanged. -/
def clampFloorSpec (minB v : Nat) : Nat :=
  if 0 < v ∧ v < minB then minB else v

/-- Claim C5: the claim states that channel values are clamped to a configured
minimum-brightness floor and otherwise transmitted unchanged.  It is
false on the code: no floor exists for which the transmitted channel
value matches; the hardware path thresholds every positive byte to the
single bit 1 (so the value 2 is transmitted as 1, which is neither
`clampFloorSpec minB 2 = 2` for floors `≤ 2` nor `= minB` for floors
`> 2`). -/
theorem brightness_floor_counterexample :
    ¬ ∃ minB : Nat, ∀ v : Nat, channelBit v = clampFloorSpec minB v := by
  rintro ⟨minB, hall⟩
  have h2 := hall 2
  unfold channelBit clampFloorSpec at h2
  split_ifs at h2 <;> omega

/-- Claim C5, amended: there is no brightness-floor correction; before
transmission each channel byte is thresholded to one bit — the FIFO word
for a pixel group is exactly
`b0 + 2 b1 + 4 b2 + 8 b3 + 16 b4 + 32 b5` with `bk = 1` iff channel byte
k is positive, so every positive value transmits identically and no value
other than 0 or 1 is ever transmitted for a channel. -/
theorem packPixel_thresholds (rowData : List Nat) (i : Nat) :
    packPixel rowData i =
      channelBit (rowData.getD (i + 0) 0) +
      2 * channelBit (rowData.getD (i + 1) 0) +
      4 * channelBit (rowData.getD (i + 2) 0) +
      8 * channelBit (rowData.getD (i + 3) 0) +
      16 * channelBit (rowData.getD (i + 4) 0) +
      32 * channelBit (rowData.getD (i + 5) 0) := by
  unfold packPixel channelBit
  split_ifs <;> decide

/-! ## Memory-mapped register window (package mmap) and PIO registers

`MemoryMap` wraps a byte region obtained from `/dev/mem`.  Its 32-bit
accessors cast a raw pointer at the requested byte offset; Go bounds
checking applies only to the index expression `m.region[offset]`, and an
out-of-range index is a runtime panic, not a returned error.  The PIO
accessors `readReg`/`writeReg` (pio package) instead validate the offset
against the window length and return an error value. -/

/-- Outcome of a register access: a value, a returned error, or a Go
runtime panic (which is not a returned error value). -/
inductive AccessOutcome (α : Type) where
  | ok (val : α)
  | errOutOfRange
  | errNotMapped
  | errNilController
  | panicked
deriving DecidableEq, Repr

/-- The mapped window: `size = len(m.region)`; `mem` gives the byte at
each offset from the mapping base.  Offsets `≥ size` model whatever
memory happens to sit beyond the mapped window (an unchecked 32-bit
access near the end of the window can touch it). -/
structure MemoryMap where
  size : Nat
  mem : Nat → Nat

/-- Little-endian 32-bit load of the four bytes at `off`. -/
def read4 (mem : Nat → Nat) (off : Nat) : Nat :=
  mem off + 2 ^ 8 * mem (off + 1) + 2 ^ 16 * mem (off + 2) +
    2 ^ 24 * mem (off + 3)

/-- Little-endian 32-bit store of `v` at the four bytes at `off`. -/
def write4 (mem : Nat → Nat) (off v : Nat) : Nat → Nat :=
  fun a =>
    if a = off then v % 2 ^ 8
    else if a = off + 1 then (v >>> 8) % 2 ^ 8
    else if a = off + 2 then (v >>> 16) % 2 ^ 8
    else if a = off + 3 then (v >>> 24) % 2 ^ 8
    else mem a

/-- `MemoryMap.Read32(offset)`: `*(*uint32)(unsafe.Pointer(&m.region[offset]))`.
The only check is Go's implicit index bound `offset < len(region)`, whose
failure is a panic; there is no error return in the signature. -/
def MemoryMap.Read32 (m : MemoryMap) (offset : Nat) : AccessOutcome Nat :=
  if offset < m.size then .ok (read4 m.mem offset) else .panicked

/-- `MemoryMap.Write32(offset, value)`: same unchecked pointer store. -/
def MemoryMap.Write32 (m : MemoryMap) (offset v : Nat) :
    MemoryMap × AccessOutcome Unit :=
  if offset < m.size then ({ m with mem := write4 m.mem offset v }, .ok ())
  else (m, .panicked)

/-- `PIOBaseAddr = 0x50200000` (pio package). -/
def PIOBaseAddr : Nat := 0x50200000

/-- `PIOMemSize = 0x1000`. -/
def PIOMemSize : Nat := 0x1000

/-- `SM0_EXECCTRL = 0x0cc`. -/
def SM0_EXECCTRL : Nat := 0x0cc

/-- `SM0_FSTAT = 0x0e0`. -/
def SM0_FSTAT : Nat := 0x0e0

/-- `SM0_TXF = 0x0e8`. -/
def SM0_TXF : Nat := 0x0e8

/-- The PIO controller's mapped register window: `mapped` is whether
`p.mem != nil`; `size = len(p.mem)`; `mem` the mapped bytes. -/
structure Pio where
  mapped : Bool
  size : Nat
  mem : Nat → Nat

/-- The `uint32` subtraction `offset := addr - PIOBaseAddr` of
`readReg`/`writeReg` (wraps modulo `2^32` for addresses below the base). -/
def pioRegOffset (addr : Nat) : Nat :=
  (addr + 2 ^ 32 - PIOBaseAddr) % 2 ^ 32

/-- `PIO.readReg(addr)`: nil-map check, then the offset is validated
against the window length; out-of-range is a returned error and performs
no load. -/
def Pio.readReg (p : Pio) (addr : Nat) : AccessOutcome Nat :=
  if p.mapped = false then .errNotMapped
  else if p.size ≤ pioRegOffset addr then .errOutOfRange
  else .ok (read4 p.mem (pioRegOffset addr))

/-- `PIO.writeReg(addr, val)`: same checks; out-of-range is a returned
error and performs no store. -/
def Pio.writeReg (p : Pio) (addr val : Nat) : Pio × AccessOutcome Unit :=
  if p.mapped = false then (p, .errNotMapped)
  else if p.size ≤ pioRegOffset addr then (p, .errOutOfRange)
  else ({ p with mem := write4 p.mem (pioRegOffset addr) val }, .ok ())

theorem pioRegOffset_eq (addr : Nat) (h1 : PIOBaseAddr ≤ addr)
    (h2 : addr < 2 ^ 32) : pioRegOffset addr = addr - PIOBaseAddr := by
  unfold pioRegOffset PIOBaseAddr at *
  omega

/-- Claim C2: the claim states that every out-of-window 32-bit access on the
mapped region — including `MemoryMap.Read32`/`Write32` — fails with an
out-of-range error.  It is false on the code: `MemoryMap.Read32` performs
no bounds check and has no error return; at offset = window size it hits
a Go runtime index panic instead of returning an error (shown here on a
4-byte window at offset 4, likewise for `Write32`). -/
theorem read32_bounds_counterexample :
    MemoryMap.Read32 ⟨4, fun _ => 0⟩ 4 ≠ AccessOutcome.errOutOfRange ∧
    MemoryMap.Read32 ⟨4, fun _ => 0⟩ 4 = AccessOutcome.panicked ∧
    (MemoryMap.Write32 ⟨4, fun _ => 0⟩ 4 7).2 = AccessOutcome.panicked := by
  refine ⟨?_, ?_, ?_⟩ <;> simp [MemoryMap.Read32, MemoryMap.Write32]

/-- Claim C2, amended: the bounds-checked-failure discipline holds for the PIO
accessors `readReg`/`writeReg` — an offset at or beyond the window size
yields an out-of-range error and leaves memory untouched, an offset
strictly inside succeeds — while `MemoryMap.Read32`/`Write32` perform no
explicit bounds check and cannot return an error: an offset at or beyond
the window is a runtime panic, and an in-window offset always proceeds to
the raw access. -/
theorem register_access_bounds (p : Pio) (addr val : Nat)
    (hm : p.mapped = true) (h1 : PIOBaseAddr ≤ addr) (h2 : addr < 2 ^ 32) :
    (p.size ≤ addr - PIOBaseAddr →
      p.readReg addr = .errOutOfRange ∧
      p.writeReg addr val = (p, .errOutOfRange)) ∧
    (addr - PIOBaseAddr < p.size →
      p.readReg addr = .ok (read4 p.mem (addr - PIOBaseAddr)) ∧
      p.writeReg addr val =
        ({ p with mem := write4 p.mem (addr - PIOBaseAddr) val }, .ok ())) ∧
    (∀ (mm : MemoryMap) (offset : Nat),
      mm.size ≤ offset →
        mm.Read32 offset = .panicked ∧ mm.Write32 offset val = (mm, .panicked)) ∧
    (∀ (mm : MemoryMap) (offset : Nat),
      offset < mm.size →
        mm.Read32 offset = .ok (read4 mm.mem offset) ∧
        mm.Write32 offset val =
          ({ mm with mem := write4 mm.mem offset val }, .ok ())) := by
  have hoff := pioRegOffset_eq addr h1 h2
  refine ⟨?_, ?_, ?_, ?_⟩
  · intro hge
    constructor <;> simp [Pio.readReg, Pio.writeReg, hm, hoff, hge]
  · intro hlt
    constructor <;>
      simp [Pio.readReg, Pio.writeReg, hm, hoff, Nat.not_le.mpr hlt]
  · intro mm offset hge
    constructor <;>
      simp [MemoryMap.Read32, MemoryMap.Write32, Nat.not_lt.mpr hge]
  · intro mm offset hlt
    constructor <;> simp [MemoryMap.Read32, MemoryMap.Write32, hlt]

/-- Closed witness for `register_access_bounds`: a mapped 4 KiB window
accessed at the EXECCTRL register address. -/
theorem register_access_bounds_witness :
    (Pio.mapped ⟨true, 0x1000, fun _ => 0⟩ = true ∧
      PIOBaseAddr ≤ PIOBaseAddr + 0x0cc ∧ PIOBaseAddr + 0x0cc < 2 ^ 32) ∧
    ((Pio.size ⟨true, 0x1000, fun _ => 0⟩ ≤ PIOBaseAddr + 0x0cc - PIOBaseAddr →
      Pio.readReg ⟨true, 0x1000, fun _ => 0⟩ (PIOBaseAddr + 0x0cc) = .errOutOfRange ∧
      Pio.writeReg ⟨true, 0x1000, fun _ => 0⟩ (PIOBaseAddr + 0x0cc) 3 =
        (⟨true, 0x1000, fun _ => 0⟩, .errOutOfRange)) ∧
    (PIOBaseAddr + 0x0cc - PIOBaseAddr < Pio.size ⟨true, 0x1000, fun _ => 0⟩ →
      Pio.readReg ⟨true, 0x1000, fun _ => 0⟩ (PIOBaseAddr + 0x0cc) =
        .ok (read4 (Pio.mem ⟨true, 0x1000, fun _ => 0⟩)
          (PIOBaseAddr + 0x0cc - PIOBaseAddr)) ∧
      Pio.writeReg ⟨true, 0x1000, fun _ => 0⟩ (PIOBaseAddr + 0x0cc) 3 =
        ({ Pio.mk true 0x1000 (fun _ => 0) with
            mem := write4 (Pio.mem ⟨true, 0x1000, fun _ => 0⟩)
              (PIOBaseAddr + 0x0cc - PIOBaseAddr) 3 }, .ok ())) ∧
    (∀ (mm : MemoryMap) (offset : Nat),
      mm.size ≤ offset →
        mm.Read32 offset = .panicked ∧ mm.Write32 offset 3 = (mm, .panicked)) ∧
    (∀ (mm : MemoryMap) (offset : Nat),
      offset < mm.size →
        mm.Read32 offset = .ok (read4 mm.mem offset) ∧
        mm.Write32 offset 3 =
          ({ mm with mem := write4 mm.mem offset 3 }, .ok ()))) :=
  ⟨⟨rfl, by norm_num, by norm_num [PIOBaseAddr]⟩,
    register_access_bounds ⟨true, 0x1000, fun _ => 0⟩ (PIOBaseAddr + 0x0cc) 3
      rfl (by norm_num) (by norm_num [PIOBaseAddr])⟩

/-! ## `StateMachine.Put`: FIFO backpressure with a bounded timeout

`Put(data)` polls the FSTAT register for TX-FIFO space (`fstat & 0x1`),
sleeping 100 µs between polls, until either space appears, the 100 ms
deadline has passed, or a register read fails.  Time is modelled in
microseconds; `fstat t` is the `readReg` outcome at time `t` (`none` for
a read error), and each loop iteration advances time by the sleep. -/

/-- `time.Sleep(time.Microsecond * 100)` between polls. -/
def putPollIntervalUs : Nat := 100

/-- `deadline := time.Now().Add(time.Millisecond * 100)`. -/
def putTimeoutUs : Nat := 100000

inductive PutResult where
  | ok (t : Nat)
  | errPioNil
  | fstatReadFailure
  | timeout (t : Nat)
deriving DecidableEq, Repr

/-- The polling loop of `StateMachine.Put`, started at time `t` with the
given deadline.  Each iteration: read FSTAT (propagating a read failure
as a distinct error), break on space, return the timeout error if the
current time is strictly past the deadline, otherwise sleep and retry. -/
def putPoll (fstat : Nat → Option Nat) (deadline t : Nat) : PutResult :=
  match fstat t with
  | none => .fstatReadFailure
  | some v =>
    if v &&& 1 = 0 then .ok t
    else if deadline < t then .timeout t
    else putPoll fstat deadline (t + putPollIntervalUs)
termination_by deadline + 1 - t
decreasing_by
  simp only [putPollIntervalUs]
  omega

/-- `StateMachine.Put(data)`: nil-controller check, then the polling loop
with the 100 ms deadline (the TXF write follows a `.ok` break). -/
def StateMachinePut (pioNil : Bool) (fstat : Nat → Option Nat)
    (t0 : Nat) : PutResult :=
  if pioNil then .errPioNil else putPoll fstat (t0 + putTimeoutUs) t0

theorem putPoll_none (fstat : Nat → Option Nat) (d t : Nat)
    (h : fstat t = none) : putPoll fstat d t = .fstatReadFailure := by
  conv_lhs => rw [putPoll]
  rw [h]

theorem putPoll_some (fstat : Nat → Option Nat) (d t v : Nat)
    (h : fstat t = some v) :
    putPoll fstat d t =
      (if v &&& 1 = 0 then .ok t
       else if d < t then .timeout t
       else putPoll fstat d (t + putPollIntervalUs)) := by
  conv_lhs => rw [putPoll]
  rw [h]

theorem putPoll_timeout_gt (fstat : Nat → Option Nat) (d : Nat) :
    ∀ n t te, d + 1 - t ≤ n → putPoll fstat d t = .timeout te → d < te := by
  intro n
  induction n with
  | zero =>
    intro t te hn h
    have ht : d < t := by omega
    cases hf : fstat t with
    | none =>
      rw [putPoll_none fstat d t hf] at h
      exact absurd h (by simp)
    | some v =>
      rw [putPoll_some fstat d t v hf] at h
      by_cases hv : v &&& 1 = 0
      · rw [if_pos hv] at h; exact absurd h (by simp)
      · rw [if_neg hv, if_pos ht] at h
        have : t = te := by simpa using h
        omega
  | succ n ih =>
    intro t te hn h
    cases hf : fstat t with
    | none =>
      rw [putPoll_none fstat d t hf] at h
      exact absurd h (by simp)
    | some v =>
      rw [putPoll_some fstat d t v hf] at h
      by_cases hv : v &&& 1 = 0
      · rw [if_pos hv] at h; exact absurd h (by simp)
      · rw [if_neg hv] at h
        by_cases ht : d < t
        · rw [if_pos ht] at h
          have : t = te := by simpa using h
          omega
        · rw [if_neg ht] at h
          exact ih (t + putPollIntervalUs) te
            (by simp only [putPollIntervalUs]; omega) h

theorem putPoll_full_terminates (fstat : Nat → Option Nat) (d : Nat)
    (hfull : ∀ t, ∃ v, fstat t = some v ∧ v &&& 1 = 1) :
    ∀ n t, d + 1 - t ≤ n → t ≤ d + putPollIntervalUs →
      ∃ te, putPoll fstat d t = .timeout te ∧ te ≤ d + putPollIntervalUs := by
  intro n
  induction n with
  | zero =>
    intro t hn htb
    have ht : d < t := by omega
    obtain ⟨v, hf, hv⟩ := hfull t
    refine ⟨t, ?_, htb⟩
    rw [putPoll_some fstat d t v hf]
    rw [if_neg (by omega), if_pos ht]
  | succ n ih =>
    intro t hn htb
    obtain ⟨v, hf, hv⟩ := hfull t
    by_cases ht : d < t
    · refine ⟨t, ?_, htb⟩
      rw [putPoll_some fstat d t v hf]
      rw [if_neg (by omega), if_pos ht]
    · obtain ⟨te, hte, hteb⟩ := ih (t + putPollIntervalUs)
        (by simp only [putPollIntervalUs]; omega)
        (by simp only [putPollIntervalUs] at *; omega)
      refine ⟨te, ?_, hteb⟩
      rw [putPoll_some fstat d t v hf]
      rw [if_neg (by omega), if_neg ht]
      exact hte

/-- Claim C6: against a TX FIFO whose status register permanently reports full,
`Put` terminates with the timeout error, returned strictly after the
100 ms bound elapses and no later than one poll interval past it; a
timeout returned by the polling loop is never premature (its time is
strictly past the deadline), and the timeout is a distinct condition from
a register read failure. -/
theorem put_timeout_bound (fstat : Nat → Option Nat) (t0 : Nat)
    (hfull : ∀ t, ∃ v, fstat t = some v ∧ v &&& 1 = 1) :
    (∃ te, StateMachinePut false fstat t0 = .timeout te ∧
      t0 + putTimeoutUs < te ∧ te ≤ t0 + putTimeoutUs + putPollIntervalUs) ∧
    (∀ (g : Nat → Option Nat) (d t te : Nat),
      putPoll g d t = .timeout te → d < te) ∧
    (∀ te, PutResult.timeout te ≠ PutResult.fstatReadFailure) := by
  refine ⟨?_, ?_, ?_⟩
  · obtain ⟨te, hte, hteb⟩ :=
      putPoll_full_terminates fstat (t0 + putTimeoutUs) hfull
        (t0 + putTimeoutUs + 1 - t0) t0 (by omega)
        (by simp only [putPollIntervalUs]; omega)
    have hgt := putPoll_timeout_gt fstat (t0 + putTimeoutUs)
      (t0 + putTimeoutUs + 1 - t0) t0 te (by omega) hte
    exact ⟨te, by simpa [StateMachinePut] using hte, hgt, hteb⟩
  · intro g d t te h
    exact putPoll_timeout_gt g d (d + 1 - t) t te (by omega) h
  · intro te
    simp

/-- Closed witness for `put_timeout_bound`: the FSTAT register constantly
reads 1 (TX full). -/
theorem put_timeout_bound_witness :
    (∀ t : Nat, ∃ v, (fun _ : Nat => some 1) t = some v ∧ v &&& 1 = 1) ∧
    ((∃ te, StateMachinePut false (fun _ : Nat => some 1) 0 = .timeout te ∧
      0 + putTimeoutUs < te ∧ te ≤ 0 + putTimeoutUs + putPollIntervalUs) ∧
    (∀ (g : Nat → Option Nat) (d t te : Nat),
      putPoll g d t = .timeout te → d < te) ∧
    (∀ te, PutResult.timeout te ≠ PutResult.fstatReadFailure)) :=
  ⟨fun _ => ⟨1, rfl, rfl⟩,
    put_timeout_bound (fun _ => some 1) 0 (fun _ => ⟨1, rfl, rfl⟩)⟩

/-! ## `StateMachine.Stop` -/

/-- `StateMachine.Stop`: nil-controller check, then a single
`writeReg(PIOBaseAddr + sm*0x40 + SM0_EXECCTRL, 0x0)`.  No other register
is touched and there is no branch on the current run state. -/
def StateMachineStop (pioNil : Bool) (p : Pio) (sm : Nat) :
    Pio × AccessOutcome Unit :=
  if pioNil then (p, .errNilController)
  else p.writeReg (PIOBaseAddr + sm * 0x40 + SM0_EXECCTRL) 0

/-- Claim C7: `Stop` on an already-stopped slot (indeed in any state) returns
no error; it writes only the four EXECCTRL bytes of its slot, so FIFO
contents and loaded program memory are unchanged; and it is idempotent:
a second `Stop` returns the identical state and no error. -/
theorem stop_idempotent (p : Pio) (sm : Nat) (hm : p.mapped = true)
    (hoff : sm * 0x40 + SM0_EXECCTRL < p.size) (hsz : p.size ≤ PIOMemSize) :
    (StateMachineStop false p sm).2 = .ok () ∧
    (∀ a, a < sm * 0x40 + SM0_EXECCTRL ∨ sm * 0x40 + SM0_EXECCTRL + 4 ≤ a →
      (StateMachineStop false p sm).1.mem a = p.mem a) ∧
    StateMachineStop false (StateMachineStop false p sm).1 sm =
      StateMachineStop false p sm := by
  have hlt : PIOBaseAddr + sm * 0x40 + SM0_EXECCTRL < 2 ^ 32 := by
    simp only [PIOMemSize, SM0_EXECCTRL] at *
    norm_num [PIOBaseAddr]
    omega
  have hoffeq : pioRegOffset (PIOBaseAddr + sm * 0x40 + SM0_EXECCTRL) =
      sm * 0x40 + SM0_EXECCTRL := by
    rw [pioRegOffset_eq _ (by omega) hlt]
    omega
  have hw : StateMachineStop false p sm =
      ({ p with mem := write4 p.mem (sm * 0x40 + SM0_EXECCTRL) 0 }, .ok ()) := by
    simp [StateMachineStop, Pio.writeReg, hm, hoffeq, Nat.not_le.mpr hoff]
  refine ⟨by rw [hw], ?_, ?_⟩
  · intro a ha
    rw [hw]
    simp only [write4]
    rw [if_neg (by omega), if_neg (by omega), if_neg (by omega),
      if_neg (by omega)]
  · have key :
        write4 (write4 p.mem (sm * 0x40 + SM0_EXECCTRL) 0)
            (sm * 0x40 + SM0_EXECCTRL) 0 =
          write4 p.mem (sm * 0x40 + SM0_EXECCTRL) 0 := by
      funext a
      simp only [write4]
      split_ifs <;> rfl
    rw [hw]
    simp [StateMachineStop, Pio.writeReg, hm, hoffeq, Nat.not_le.mpr hoff, key]

/-- Closed witness for `stop_idempotent`: a mapped 4 KiB window, slot 1. -/
theorem stop_idempotent_witness :
    (Pio.mapped ⟨true, 0x1000, fun _ => 0⟩ = true ∧
      1 * 0x40 + SM0_EXECCTRL < Pio.size ⟨true, 0x1000, fun _ => 0⟩ ∧
      Pio.size ⟨true, 0x1000, fun _ => 0⟩ ≤ PIOMemSize) ∧
    ((StateMachineStop false ⟨true, 0x1000, fun _ => 0⟩ 1).2 = .ok () ∧
    (∀ a, a < 1 * 0x40 + SM0_EXECCTRL ∨ 1 * 0x40 + SM0_EXECCTRL + 4 ≤ a →
      (StateMachineStop false ⟨true, 0x1000, fun _ => 0⟩ 1).1.mem a =
        Pio.mem ⟨true, 0x1000, fun _ => 0⟩ a) ∧
    StateMachineStop false
        (StateMachineStop false ⟨true, 0x1000, fun _ => 0⟩ 1).1 1 =
      StateMachineStop false ⟨true, 0x1000, fun _ => 0⟩ 1) :=
  ⟨⟨rfl, by norm_num [SM0_EXECCTRL], by norm_num [PIOMemSize]⟩,
    stop_idempotent ⟨true, 0x1000, fun _ => 0⟩ 1 rfl
      (by norm_num [SM0_EXECCTRL]) (by norm_num [PIOMemSize])⟩

/-! ## `StateMachine.Close`: self-deadlock on the non-reentrant mutex

`Close` takes `sm.mu.Lock()` (with a deferred unlock) and then calls
`sm.Stop()`, whose body begins with `sm.mu.Lock()` on the same mutex.  Go's
`sync.Mutex` is not reentrant, and no other goroutine holds a reference
that would release it, so the second acquisition blocks forever.  We model
the single goroutine's sequence of mutex/resource operations and run it
against the mutex state. -/

inductive SMOp where
  | lockMu
  | unlockMu
  | writeExec
  | closeChip
  | closePio
deriving DecidableEq, Repr

/-- The operation sequence of `StateMachine.Stop`: lock, the EXECCTRL
register write, deferred unlock. -/
def stopOps : List SMOp := [.lockMu, .writeExec, .unlockMu]

/-- The operation sequence of `StateMachine.Close`: lock, the inlined
`Stop()` call, then `chip.Close()` and `pio.Close()`, with the deferred
unlock last. -/
def closeOps : List SMOp :=
  [SMOp.lockMu] ++ stopOps ++ [SMOp.closeChip, SMOp.closePio, SMOp.unlockMu]

/-- Runs a single goroutine's operations against the mutex (`held` is
whether this goroutine already holds it).  Locking an already-held
non-reentrant mutex blocks forever — no later operation executes and the
sequence does not complete.  Returns the executed operations and whether
the sequence ran to completion. -/
def runOps (held : Bool) : List SMOp → List SMOp × Bool
  | [] => ([], true)
  | op :: rest =>
    match op with
    | .lockMu =>
      if held then ([], false)
      else
        let r := runOps true rest
        (SMOp.lockMu :: r.1, r.2)
    | .unlockMu =>
      let r := runOps false rest
      (SMOp.unlockMu :: r.1, r.2)
    | other =>
      let r := runOps held rest
      (other :: r.1, r.2)

/-- Claim C9: `StateMachine.Close` never returns.  Starting with the mutex free,
its operation sequence blocks (does not run to completion) at `Stop`'s
lock acquisition — after executing only the first lock — and in particular
neither the GPIO chip close nor the PIO unmap is ever executed; `Stop`
run on its own completes, so the deadlock is specific to `Close` holding
the mutex across its `Stop()` call. -/
theorem close_self_deadlock :
    (runOps false closeOps).2 = false ∧
    (runOps false closeOps).1 = [SMOp.lockMu] ∧
    SMOp.closeChip ∉ (runOps false closeOps).1 ∧
    SMOp.closePio ∉ (runOps false closeOps).1 ∧
    (runOps false stopOps).2 = true := by
  decide

/-! ## GPIO pin release (package gpio, sysfs; cmd/hub75-gpio)

`Pin.Close` unexports the pin and swallows any failure: it logs the
warning and returns `nil`.  `HUB75Controller.Close` closes every
requested line, logging (never propagating) per-line errors, clears the
line map and returns `nil`. -/

/-- Which pins the kernel currently has exported via sysfs. -/
structure SysfsGpio where
  exported : Nat → Bool

/-- Modelled from the spec: the kernel side of the sysfs `unexport` write
issued by `unexportPin` (package gpio) — the write succeeds iff the pin
is currently exported; unexporting a non-exported pin fails (the spec's
"release commonly races with kernel-side cleanup").  The `Bool` is
whether the write succeeded. -/
def sysfsUnexport (st : SysfsGpio) (n : Nat) : SysfsGpio × Bool :=
  if st.exported n then
    (⟨fun m => if m = n then false else st.exported m⟩, true)
  else (st, false)

/-- `Pin.Close` (package gpio): calls `unexportPin`; on failure it only
logs ("Warning: failed to unexport pin …") and still returns `nil`.  The
`Option String` component is the returned error — always `none`. -/
def pinClose (st : SysfsGpio) (n : Nat) : SysfsGpio × Option String :=
  ((sysfsUnexport st n).1, none)

/-- `HUB75Controller.Close` (cmd/hub75-gpio/main.go): iterates the line
map, logging any `line.Close()` failure, clears the map, returns `nil`.
`ok pin` is whether the underlying gpiocdev close succeeds; result:
(line map afterwards, pins whose close failed and was logged, returned
error). -/
def controllerClose (lines : List Nat) (ok : Nat → Bool) :
    List Nat × List Nat × Option String :=
  ([], lines.filter (fun pin => !(ok pin)), none)

/-- Claim C8: releasing a pin never propagates failure and is idempotent — for
every kernel state `Pin.Close` returns `nil`; a second close of the same
pin is safe: it returns `nil` again and leaves the state exactly where
the first close left it (the pin no longer exported).  Likewise
`HUB75Controller.Close` returns `nil` whatever the per-line close
results, and a second call (on the cleared map) is a no-op returning
`nil`. -/
theorem release_idempotent (st : SysfsGpio) (n : Nat) (lines : List Nat)
    (ok okSecond : Nat → Bool) :
    (pinClose st n).2 = none ∧
    (pinClose st n).1.exported n = false ∧
    pinClose (pinClose st n).1 n = ((pinClose st n).1, none) ∧
    (controllerClose lines ok).2.2 = none ∧
    (controllerClose lines ok).1 = [] ∧
    controllerClose (controllerClose lines ok).1 okSecond = ([], [], none) := by
  have hexp : (pinClose st n).1.exported n = false := by
    simp only [pinClose, sysfsUnexport]
    by_cases h : st.exported n = true
    · simp [h]
    · simp only [Bool.not_eq_true] at h
      simp [h]
  refine ⟨rfl, hexp, ?_, rfl, rfl, by simp [controllerClose]⟩
  have step : ∀ s : SysfsGpio, s.exported n = false → pinClose s n = (s, none) := by
    intro s hs
    simp [pinClose, sysfsUnexport, hs]
  exact step _ hexp

/-! ## Serpentine pixel addressing (package rpi5matrix)

`Matrix.SetPixel(x, y, c)` and `Matrix.GetPixelColor(x, y)` both compute
the same serpentine buffer index (`y*width + x` on even rows,
`y*width + (width-1-x)` on odd rows) and delegate to the strip's
index-based accessors.  Colors are Go `color.RGBA` values; `RGBA()`
widens each 8-bit component `c` to 16 bits as `c | c<<8`, and the strip's
`GetPixelColor` recovers the 8-bit component as `uint8(x >> 8)`. -/

/-- A Go `color.RGBA` value (8-bit components). -/
structure Color8 where
  r : Nat
  g : Nat
  b : Nat
  a : Nat
deriving DecidableEq, Repr

/-- `color.RGBA.RGBA()` component widening: `c |= c << 8`. -/
def widen16 (c : Nat) : Nat := c ||| (c <<< 8)

/-- The serpentine index; this expression appears verbatim in both
`Matrix.SetPixel` and `Matrix.GetPixelColor`. -/
def serpentineIndex (width x y : Nat) : Nat :=
  if y % 2 = 0 then y * width + x else y * width + (width - 1 - x)

/-- The rpi5matrix `Matrix`: dimensions plus the strip's color buffer. -/
structure LedMatrix where
  width : Nat
  height : Nat
  buffer : List Color8

/-- Modelled from the spec: the strip's index-based pixel store
`strip.SetPixel(index, c)` invoked by `Matrix.SetPixel` — a
bounds-checked write of `c` at `buffer[index]`, following the index-based
accessors (`GetPixelColor`, `SetPixelBrightness`) of
pkg/rpi5matrix/driver.go; only its caller is present in the sources. -/
def stripSetPixel (m : LedMatrix) (index : Nat) (c : Color8) :
    Except String LedMatrix :=
  if index < m.buffer.length then
    .ok { m with buffer := m.buffer.set index c }
  else .error "index out of bounds"

/-- `RGBMatrix.GetPixelColor(index)` (pkg/rpi5matrix/driver.go): bounds
check, then the components `uint8(r >> 8)` of `buffer[index].RGBA()`. -/
def stripGetPixelColor (m : LedMatrix) (index : Nat) :
    Except String (Nat × Nat × Nat) :=
  if index < m.buffer.length then
    .ok ((widen16 (m.buffer.getD index ⟨0, 0, 0, 0⟩).r >>> 8) % 2 ^ 8,
      (widen16 (m.buffer.getD index ⟨0, 0, 0, 0⟩).g >>> 8) % 2 ^ 8,
      (widen16 (m.buffer.getD index ⟨0, 0, 0, 0⟩).b >>> 8) % 2 ^ 8)
  else .error "index out of bounds"

/-- `Matrix.SetPixel(x, y, c)`: bounds check against width/height (the Go
`x < 0`/`y < 0` cases cannot arise over `Nat`), serpentine index, strip
store. -/
def matrixSetPixel (m : LedMatrix) (x y : Nat) (c : Color8) :
    Except String LedMatrix :=
  if m.width ≤ x ∨ m.height ≤ y then .error "coordinates out of bounds"
  else stripSetPixel m (serpentineIndex m.width x y) c

/-- `Matrix.GetPixelColor(x, y)`: same bounds check and serpentine index,
strip read. -/
def matrixGetPixelColor (m : LedMatrix) (x y : Nat) :
    Except String (Nat × Nat × Nat) :=
  if m.width ≤ x ∨ m.height ≤ y then .error "coordinates out of bounds"
  else stripGetPixelColor m (serpentineIndex m.width x y)

theorem serpentineIndex_lt (width height x y : Nat) (hx : x < width)
    (hy : y < height) : serpentineIndex width x y < width * height := by
  unfold serpentineIndex
  have h1 : y * width + width ≤ height * width := by
    have := Nat.succ_le_of_lt hy
    calc y * width + width = (y + 1) * width := by ring
    _ ≤ height * width := Nat.mul_le_mul_right _ this
  split_ifs <;> [skip; skip] <;>
    · have : width * height = height * width := Nat.mul_comm _ _
      omega

set_option maxRecDepth 4096 in
theorem widen16_roundtrip : ∀ c < 2 ^ 8, (widen16 c >>> 8) % 2 ^ 8 = c := by
  decide

/-- Claim C10: for every in-bounds coordinate, `GetPixelColor` immediately
after `SetPixel` returns the 8-bit RGB components of the written color:
both operations compute the same serpentine index, the index is within
the width×height buffer, and the `RGBA()` widening/`>> 8` narrowing
round-trips every 8-bit component. -/
theorem setPixel_getPixelColor_roundtrip (m : LedMatrix) (x y : Nat)
    (c : Color8) (hx : x < m.width) (hy : y < m.height)
    (hbuf : m.buffer.length = m.width * m.height)
    (hr : c.r < 2 ^ 8) (hg : c.g < 2 ^ 8) (hb : c.b < 2 ^ 8) :
    ∃ m', matrixSetPixel m x y c = .ok m' ∧
      matrixGetPixelColor m' x y = .ok (c.r, c.g, c.b) := by
  have hidx : serpentineIndex m.width x y < m.buffer.length := by
    rw [hbuf]
    exact serpentineIndex_lt m.width m.height x y hx hy
  have hbounds : ¬ (m.width ≤ x ∨ m.height ≤ y) := by omega
  refine ⟨{ m with buffer := m.buffer.set (serpentineIndex m.width x y) c },
    ?_, ?_⟩
  · simp [matrixSetPixel, stripSetPixel, hbounds, hidx]
  · have hlen : (m.buffer.set (serpentineIndex m.width x y) c).length =
        m.buffer.length := m.buffer.length_set _ _
    have hget : (m.buffer.set (serpentineIndex m.width x y) c).getD
        (serpentineIndex m.width x y) ⟨0, 0, 0, 0⟩ = c := by
      rw [List.getD_eq_getElem?_getD]
      rw [List.getElem?_set_self (by omega)]
      rfl
    simp only [matrixGetPixelColor, stripGetPixelColor, if_neg hbounds]
    rw [if_pos (by rw [hlen]; exact hidx)]
    rw [hget, widen16_roundtrip c.r hr, widen16_roundtrip c.g hg,
      widen16_roundtrip c.b hb]

/-- Closed witness for `setPixel_getPixelColor_roundtrip`: a 2×2 matrix,
the odd-row coordinate (0, 1), color (9, 128, 255). -/
theorem setPixel_getPixelColor_roundtrip_witness :
    (0 < LedMatrix.width ⟨2, 2, [⟨0,0,0,255⟩, ⟨0,0,0,255⟩, ⟨0,0,0,255⟩, ⟨0,0,0,255⟩]⟩ ∧
      1 < LedMatrix.height ⟨2, 2, [⟨0,0,0,255⟩, ⟨0,0,0,255⟩, ⟨0,0,0,255⟩, ⟨0,0,0,255⟩]⟩ ∧
      (LedMatrix.buffer ⟨2, 2, [⟨0,0,0,255⟩, ⟨0,0,0,255⟩, ⟨0,0,0,255⟩, ⟨0,0,0,255⟩]⟩).length = 2 * 2) ∧
    ∃ m', matrixSetPixel ⟨2, 2, [⟨0,0,0,255⟩, ⟨0,0,0,255⟩, ⟨0,0,0,255⟩, ⟨0,0,0,255⟩]⟩
        0 1 ⟨9, 128, 255, 255⟩ = .ok m' ∧
      matrixGetPixelColor m' 0 1 = .ok (9, 128, 255) := by
  refine ⟨⟨by decide, by decide, by decide⟩, ?_⟩
  have h := setPixel_getPixelColor_roundtrip
    ⟨2, 2, [⟨0,0,0,255⟩, ⟨0,0,0,255⟩, ⟨0,0,0,255⟩, ⟨0,0,0,255⟩]⟩ 0 1
    ⟨9, 128, 255, 255⟩ (by decide) (by decide) (by decide)
    (by decide) (by decide) (by decide)
  exact h

end FluidncLed
